import Mathlib

/-!
Verification of the NexusLink data-marshalling core against its source:
the Python marshaller (`nlink_marshal/marshaller.py`), the security
validator (`nlink_marshal/validation.py`) and the topology manager
(`nlink_marshal/topology.py`).

Modelling conventions:
- a Python `bytes` object is a `List Nat` whose elements are < 256;
- a Python `float` is its IEEE-754 double bit pattern, a `Nat` < 2^64
  (`struct.pack`/`struct.unpack` of doubles copy the 8 bytes verbatim);
- `hashlib.sha256` is embedded as the FIPS 180-4 SHA-256 function over
  byte lists;
- exceptions become `Except MarshalError`; the source's `SecurityError`
  messages and the `struct.error` raised by `struct.pack`/`struct.unpack`
  are separate constructors.
-/

namespace Nlink

/-- 2^32, the modulus of the `uint32` fields. -/
def M32 : Nat := 4294967296

/-! ## Little-endian byte codecs (Python `struct` with formats `<I` / `<d`) -/

/-- The four little-endian bytes of a 32-bit value, as `struct.pack('<I', x)`
lays them out. -/
def u32leBytes (x : Nat) : List Nat :=
  [x % 256, x / 256 % 256, x / 65536 % 256, x / 16777216 % 256]

/-- Read four bytes as a little-endian 32-bit integer
(`struct.unpack('<I', ...)`). -/
def readU32le (b0 b1 b2 b3 : Nat) : Nat :=
  b0 + 256 * (b1 + 256 * (b2 + 256 * b3))

/-- The eight little-endian bytes of a 64-bit value: the byte image of one
`float64` under `struct.pack('<d', ...)`, with the float identified with its
bit pattern. -/
def u64leBytes (x : Nat) : List Nat :=
  [x % 256, x / 256 % 256, x / 65536 % 256, x / 16777216 % 256,
   x / 4294967296 % 256, x / 1099511627776 % 256,
   x / 281474976710656 % 256, x / 72057594037927936 % 256]

/-- Read eight bytes as a little-endian 64-bit integer: the bit pattern of
one `float64` under `struct.unpack('<d', ...)`. -/
def readU64le (b0 b1 b2 b3 b4 b5 b6 b7 : Nat) : Nat :=
  b0 + 256 * (b1 + 256 * (b2 + 256 * (b3 + 256 * (b4 + 256 * (b5 + 256 *
    (b6 + 256 * b7))))))

/-- `struct.pack('<' + 'd' * len(data), *data)`: each value contributes its
eight little-endian bytes, in input order. -/
def packDoubles : List Nat → List Nat
  | [] => []
  | x :: xs => u64leBytes x ++ packDoubles xs

/-- `struct.unpack('<' + 'd' * count, payload)` after the length check has
succeeded: split the buffer into 8-byte groups and read each little-endian. -/
def unpackDoubles : List Nat → List Nat
  | b0 :: b1 :: b2 :: b3 :: b4 :: b5 :: b6 :: b7 :: rest =>
      readU64le b0 b1 b2 b3 b4 b5 b6 b7 :: unpackDoubles rest
  | _ => []

/-! ## SHA-256 (FIPS 180-4), the meaning of `hashlib.sha256` -/

/-- Right rotation of a 32-bit word. -/
def rotr32 (n x : Nat) : Nat := ((x >>> n) ||| (x <<< (32 - n))) % M32

/-- SHA-256 Σ0. -/
def bsig0 (x : Nat) : Nat := (rotr32 2 x) ^^^ (rotr32 13 x) ^^^ (rotr32 22 x)

/-- SHA-256 Σ1. -/
def bsig1 (x : Nat) : Nat := (rotr32 6 x) ^^^ (rotr32 11 x) ^^^ (rotr32 25 x)

/-- SHA-256 σ0. -/
def ssig0 (x : Nat) : Nat := (rotr32 7 x) ^^^ (rotr32 18 x) ^^^ (x >>> 3)

/-- SHA-256 σ1. -/
def ssig1 (x : Nat) : Nat := (rotr32 17 x) ^^^ (rotr32 19 x) ^^^ (x >>> 10)

/-- SHA-256 Ch. -/
def shaCh (x y z : Nat) : Nat := (x &&& y) ^^^ ((x ^^^ 4294967295) &&& z)

/-- SHA-256 Maj. -/
def shaMaj (x y z : Nat) : Nat := (x &&& y) ^^^ (x &&& z) ^^^ (y &&& z)

/-- The 64 SHA-256 round constants (FIPS 180-4 §4.2.2, written in decimal). -/
def shaK : List Nat :=
  [1116352408, 1899447441, 3049323471, 3921009573, 961987163,
   1508970993, 2453635748, 2870763221, 3624381080, 310598401,
   607225278, 1426881987, 1925078388, 2162078206, 2614888103,
   3248222580, 3835390401, 4022224774, 264347078, 604807628,
   770255983, 1249150122, 1555081692, 1996064986, 2554220882,
   2821834349, 2952996808, 3210313671, 3336571891, 3584528711,
   113926993, 338241895, 666307205, 773529912, 1294757372,
   1396182291, 1695183700, 1986661051, 2177026350, 2456956037,
   2730485921, 2820302411, 3259730800, 3345764771, 3516065817,
   3600352804, 4094571909, 275423344, 430227734, 506948616,
   659060556, 883997877, 958139571, 1322822218, 1537002063,
   1747873779, 1955562222, 2024104815, 2227730452, 2361852424,
   2428436474, 2756734187, 3204031479, 3329325298]

/-- The SHA-256 initial hash value (FIPS 180-4 §5.3.3, in decimal). -/
def shaH0 : List Nat :=
  [1779033703, 3144134277, 1013904242, 2773480762, 1359893119,
   2600822924, 528734635, 1541459225]

/-- Extend a message-schedule prefix by `n` further words. -/
def wExtend : Nat → List Nat → List Nat
  | 0, acc => acc
  | n + 1, acc =>
      let j := acc.length
      let w := (ssig1 (acc.getD (j - 2) 0) + acc.getD (j - 7) 0 +
                ssig0 (acc.getD (j - 15) 0) + acc.getD (j - 16) 0) % M32
      wExtend n (acc ++ [w])

/-- One SHA-256 round on the working state `[a,b,c,d,e,f,g,h]`, where `kw`
is the round constant already added to the schedule word. -/
def shaRound (st : List Nat) (kw : Nat) : List Nat :=
  match st with
  | [a, b, c, d, e, f, g, h] =>
      let t1 := (h + bsig1 e + shaCh e f g + kw) % M32
      let t2 := (bsig0 a + shaMaj a b c) % M32
      [(t1 + t2) % M32, a, b, c, (d + t1) % M32, e, f, g]
  | other => other

/-- Compress one 16-word block into the running hash value. -/
def shaCompress (h : List Nat) (block : List Nat) : List Nat :=
  let w := wExtend 48 block
  let kw := (shaK.zip w).map (fun p => (p.1 + p.2) % M32)
  let st := kw.foldl shaRound h
  (h.zip st).map (fun p => (p.1 + p.2) % M32)

/-- Group bytes into big-endian 32-bit words. -/
def bytesToWords : List Nat → List Nat
  | b0 :: b1 :: b2 :: b3 :: rest =>
      (((b0 * 256 + b1) * 256 + b2) * 256 + b3) :: bytesToWords rest
  | _ => []

/-- Split a byte list into 64-byte blocks of 16 big-endian words; `fuel`
bounds the recursion and is instantiated with the list length. -/
def shaBlocks : Nat → List Nat → List (List Nat)
  | 0, _ => []
  | _ + 1, [] => []
  | fuel + 1, b :: rest =>
      bytesToWords ((b :: rest).take 64) :: shaBlocks fuel ((b :: rest).drop 64)

/-- The eight big-endian bytes of the 64-bit message-length field. -/
def u64beBytes (x : Nat) : List Nat :=
  [x / 72057594037927936 % 256, x / 281474976710656 % 256,
   x / 1099511627776 % 256, x / 4294967296 % 256,
   x / 16777216 % 256, x / 65536 % 256, x / 256 % 256, x % 256]

/-- SHA-256 padding: a 0x80 byte, zeros to 56 mod 64, then the bit length. -/
def shaPad (msg : List Nat) : List Nat :=
  msg ++ 128 :: List.replicate ((119 - msg.length % 64) % 64) 0 ++
    u64beBytes (8 * msg.length)

/-- The four big-endian bytes of a 32-bit word of the digest. -/
def u32beBytes (x : Nat) : List Nat :=
  [x / 16777216 % 256, x / 65536 % 256, x / 256 % 256, x % 256]

/-- `hashlib.sha256(msg).digest()`: the 32-byte SHA-256 digest. -/
def sha256 (msg : List Nat) : List Nat :=
  let padded := shaPad msg
  let hs := (shaBlocks padded.length padded).foldl shaCompress shaH0
  (hs.map u32beBytes).flatten

/-- `struct.unpack('<I', hashlib.sha256(p).digest()[:4])[0]`: the first four
SHA-256 digest bytes read as a little-endian 32-bit integer.  This expression
occurs verbatim in both `marshaller.py` and `validation.py`. -/
def truncatedSha (p : List Nat) : Nat :=
  match sha256 p with
  | b0 :: b1 :: b2 :: b3 :: _ => readU32le b0 b1 b2 b3
  | _ => 0

end Nlink

namespace Nlink

/-! ## Errors

The marshaller raises `SecurityError` with four distinct messages; out-of-range
`struct.pack` fields and misaligned `struct.unpack` buffers raise the separate
`struct.error` exception, modelled by `structFailure`. -/

/-- The exceptions the marshalling code can raise. -/
inductive MarshalError
  /-- `SecurityError("Invalid marshalled data: too short")` -/
  | securityTooShort
  /-- `SecurityError("Invalid version: ...")` -/
  | securityInvalidVersion
  /-- `SecurityError("Payload size mismatch")` -/
  | securityPayloadSizeMismatch
  /-- `SecurityError("Checksum validation failed")` -/
  | securityChecksumFailed
  /-- `struct.error` from `struct.pack`/`struct.unpack` -/
  | structFailure
  deriving DecidableEq

/-- The spec's `FormatError` kind: the `SecurityError`s for malformed,
truncated or unsupported-version frames. -/
def MarshalError.isFormatKind : MarshalError → Bool
  | .securityTooShort => true
  | .securityInvalidVersion => true
  | .securityPayloadSizeMismatch => true
  | _ => false

/-- The spec's `IntegrityError` kind: the checksum-mismatch `SecurityError`. -/
def MarshalError.isIntegrityKind : MarshalError → Bool
  | .securityChecksumFailed => true
  | _ => false

/-! ## Header codec (`MarshalHeader` in marshaller.py) -/

/-- The 16-byte frame header: four unsigned 32-bit fields. -/
structure MarshalHeader where
  version : Nat
  payload_size : Nat
  checksum : Nat
  topology_id : Nat
  deriving DecidableEq

/-- `struct.pack('<I', x)`: the range check (`struct.error` when the value
does not fit an unsigned 32-bit field) followed by the little-endian bytes. -/
def packU32 (x : Nat) : Except MarshalError (List Nat) :=
  if x < M32 then .ok (u32leBytes x) else .error .structFailure

/-- `MarshalHeader.to_bytes`: `struct.pack('<IIII', version, payload_size,
checksum, topology_id)`. -/
def MarshalHeader.to_bytes (h : MarshalHeader) : Except MarshalError (List Nat) :=
  match packU32 h.version, packU32 h.payload_size,
        packU32 h.checksum, packU32 h.topology_id with
  | .ok a, .ok b, .ok c, .ok d => .ok (a ++ b ++ c ++ d)
  | .error e, _, _, _ => .error e
  | _, .error e, _, _ => .error e
  | _, _, .error e, _ => .error e
  | _, _, _, .error e => .error e

/-- `MarshalHeader.from_bytes`: `struct.unpack('<IIII', data[:16])` — the
slice keeps at most 16 bytes, and unpacking fails (`struct.error`) exactly
when fewer than 16 are available. -/
def MarshalHeader.from_bytes (data : List Nat) : Except MarshalError MarshalHeader :=
  match data.take 16 with
  | [b0, b1, b2, b3, b4, b5, b6, b7, b8, b9, b10, b11, b12, b13, b14, b15] =>
      .ok ⟨readU32le b0 b1 b2 b3, readU32le b4 b5 b6 b7,
           readU32le b8 b9 b10 b11, readU32le b12 b13 b14 b15⟩
  | _ => .error .structFailure

/-! ## Marshaller (`PythonMarshaller` in marshaller.py)

An instance is determined by its `topology_id` (assigned once at
construction); `marshal_data`/`unmarshal_data` depend on nothing else of the
instance, so they take the id as an explicit argument. -/

/-- `PythonMarshaller._compute_checksum(data)`: pack the values, hash with
SHA-256, and read the first four digest bytes as a little-endian 32-bit
integer. -/
def compute_checksum (data : List Nat) : Nat :=
  let byte_data := packDoubles data
  match sha256 byte_data with
  | b0 :: b1 :: b2 :: b3 :: _ => readU32le b0 b1 b2 b3
  | _ => 0

/-- `PythonMarshaller.marshal_data(data)`. -/
def marshal_data (topology_id : Nat) (data : List Nat) :
    Except MarshalError (List Nat) :=
  let payload := packDoubles data
  let payload_size := payload.length
  let checksum := compute_checksum data
  let header : MarshalHeader := ⟨1, payload_size, checksum, topology_id⟩
  match header.to_bytes with
  | .error e => .error e
  | .ok hb => .ok (hb ++ payload)

/-- `PythonMarshaller.unmarshal_data(marshalled_data)`, step for step:
length guard, header parse, version check, payload slice and size check,
`struct.unpack` of the doubles (which needs the buffer length to be exactly
`8 * (payload_size // 8)`), and only then the checksum comparison, computed
over the re-packed decoded values. -/
def unmarshal_data (marshalled_data : List Nat) :
    Except MarshalError (List Nat) :=
  if marshalled_data.length < 16 then .error .securityTooShort
  else
    match MarshalHeader.from_bytes marshalled_data with
    | .error e => .error e
    | .ok header =>
      if header.version ≠ 1 then .error .securityInvalidVersion
      else
        let payload := (marshalled_data.drop 16).take header.payload_size
        if payload.length ≠ header.payload_size then
          .error .securityPayloadSizeMismatch
        else
          let double_count := header.payload_size / 8
          if payload.length ≠ 8 * double_count then .error .structFailure
          else
            let data := unpackDoubles payload
            let computed_checksum := compute_checksum data
            if header.checksum ≠ computed_checksum then
              .error .securityChecksumFailed
            else .ok data

/-! ## Security validator (validation.py) -/

/-- `ValidationLevel`. -/
inductive ValidationLevel
  | basic
  | standard
  | enhanced
  deriving DecidableEq

/-- `ValidationResult`. -/
inductive ValidationResult
  | valid
  | invalid_checksum
  | invalid_format
  deriving DecidableEq

/-- `SecurityPolicy`: validation level plus the advisory `max_age_seconds`. -/
structure SecurityPolicy where
  level : ValidationLevel
  max_age_seconds : Nat
  deriving DecidableEq

/-- `SecurityValidator` instance state: its policy and the mutable
`_validation_count`. -/
structure SecurityValidator where
  policy : SecurityPolicy
  validation_count : Nat
  deriving DecidableEq

/-- A freshly constructed `SecurityValidator(policy)`. -/
def SecurityValidator.new (p : SecurityPolicy) : SecurityValidator := ⟨p, 0⟩

/-- `SecurityValidator.validate_header(header_data)`: returns the result and
the updated validator state. The counter is incremented only on the path
that returns `VALID`. -/
def validate_header (s : SecurityValidator) (header_data : List Nat) :
    ValidationResult × SecurityValidator :=
  if header_data.length ≠ 16 then (.invalid_format, s)
  else
    match header_data with
    | b0 :: b1 :: b2 :: b3 :: _ =>
        if readU32le b0 b1 b2 b3 ≠ 1 then (.invalid_format, s)
        else (.valid, { s with validation_count := s.validation_count + 1 })
    | _ => (.invalid_format, s)

/-- `SecurityValidator.validate_payload(payload_data, expected_checksum)`:
the additive digest under `BASIC`, the truncated SHA-256 digest otherwise;
the validator state is returned unchanged (the source never touches the
counter here). -/
def validate_payload (s : SecurityValidator) (payload_data : List Nat)
    (expected_checksum : Nat) : ValidationResult × SecurityValidator :=
  let computed :=
    if s.policy.level = .basic then payload_data.sum &&& 4294967295
    else truncatedSha payload_data
  if computed ≠ expected_checksum then (.invalid_checksum, s)
  else (.valid, s)

/-- `SecurityValidator.get_statistics()`: the validation count and the
security level. -/
def get_statistics (s : SecurityValidator) : Nat × ValidationLevel :=
  (s.validation_count, s.policy.level)

/-! ## Topology manager (topology.py)

Wall-clock readings (`time.time()`) are passed in as explicit `now`
arguments. A Python `dict` keyed by `node_id` is modelled as the list of its
entries in insertion order: assignment replaces in place when the key is
present and appends otherwise. -/

/-- `NodeState`. -/
inductive NodeState
  | active
  | degraded
  | offline
  deriving DecidableEq

/-- `TopologyNode`. -/
structure TopologyNode where
  node_id : Nat
  node_type : String
  last_heartbeat : Nat
  marshal_operations : Nat
  state : NodeState
  deriving DecidableEq

/-- `TopologyManager` instance state. -/
structure TopologyManager where
  nodes : List TopologyNode
  local_node_id : Option Nat
  deriving DecidableEq

/-- `TopologyManager.__init__`. -/
def TopologyManager.init : TopologyManager := ⟨[], none⟩

/-- Python `dict` assignment `nodes[node.node_id] = node` on the
insertion-order entry list. -/
def dictInsert (nodes : List TopologyNode) (node : TopologyNode) :
    List TopologyNode :=
  if nodes.any (fun n => n.node_id == node.node_id) then
    nodes.map (fun n => if n.node_id == node.node_id then node else n)
  else nodes ++ [node]

/-- `TopologyManager.register_node(node_type)`: assign
`len(self._nodes) + 1`, store an `ACTIVE` node, record the local id if this
is the first registration, and return the new id. -/
def register_node (m : TopologyManager) (node_type : String) (now : Nat) :
    Nat × TopologyManager :=
  let node_id := m.nodes.length + 1
  let node : TopologyNode := ⟨node_id, node_type, now, 0, .active⟩
  let nodes := dictInsert m.nodes node
  let localId := match m.local_node_id with
    | none => some node_id
    | some x => some x
  (node_id, ⟨nodes, localId⟩)

/-- `TopologyManager.get_local_node_id()`. -/
def get_local_node_id (m : TopologyManager) : Option Nat := m.local_node_id

/-- `TopologyManager.update_heartbeat(node_id)`: refresh the timestamp when
the id is known, silently no-op otherwise. -/
def update_heartbeat (m : TopologyManager) (node_id : Nat) (now : Nat) :
    TopologyManager :=
  if m.nodes.any (fun n => n.node_id == node_id) then
    { m with nodes := m.nodes.map (fun n =>
        if n.node_id == node_id then { n with last_heartbeat := now } else n) }
  else m

/-- The dictionary returned by `TopologyManager.get_topology_summary()`. -/
structure TopologySummary where
  total_nodes : Nat
  active_nodes : Nat
  local_node_id : Option Nat
  deriving DecidableEq

/-- `TopologyManager.get_topology_summary()`. -/
def get_topology_summary (m : TopologyManager) : TopologySummary :=
  ⟨m.nodes.length,
   (m.nodes.filter (fun n => n.state == NodeState.active)).length,
   m.local_node_id⟩

/-! ## Observable call sequences, for stating the stateful properties -/

/-- The little-endian 32-bit field at byte offset `i` of a byte string. -/
def readU32At (d : List Nat) (i : Nat) : Nat :=
  readU32le (d.getD i 0) (d.getD (i + 1) 0) (d.getD (i + 2) 0) (d.getD (i + 3) 0)

/-- Run a sequence of `register_node(node_type)` calls (each with its
`time.time()` reading) on a manager, collecting the returned ids. -/
def registerRun : TopologyManager → List (String × Nat) →
    List Nat × TopologyManager
  | m, [] => ([], m)
  | m, (t, now) :: rest =>
      let r := register_node m t now
      let rr := registerRun r.2 rest
      (r.1 :: rr.1, rr.2)

/-- One call on a `TopologyManager`; the two queries read without writing. -/
inductive TopoOp
  | register (node_type : String) (now : Nat)
  | heartbeat (node_id : Nat) (now : Nat)
  | localQuery
  | summaryQuery

/-- Thread manager state through a sequence of calls
(`get_local_node_id` and `get_topology_summary` leave it unchanged). -/
def applyTopoOps : TopologyManager → List TopoOp → TopologyManager
  | m, [] => m
  | m, .register t now :: rest => applyTopoOps (register_node m t now).2 rest
  | m, .heartbeat nid now :: rest =>
      applyTopoOps (update_heartbeat m nid now) rest
  | m, .localQuery :: rest => applyTopoOps m rest
  | m, .summaryQuery :: rest => applyTopoOps m rest

/-- One call on a `SecurityValidator`. -/
inductive ValidatorOp
  | headerCall (d : List Nat)
  | payloadCall (d : List Nat) (expected : Nat)

/-- Thread validator state through a sequence of calls. -/
def applyValidatorOps : SecurityValidator → List ValidatorOp → SecurityValidator
  | s, [] => s
  | s, .headerCall d :: rest => applyValidatorOps (validate_header s d).2 rest
  | s, .payloadCall d e :: rest =>
      applyValidatorOps (validate_payload s d e).2 rest

/-- The state-independent criterion under which `validate_header` returns
`VALID`: exactly 16 bytes, and the first little-endian 32-bit field is 1. -/
def headerCallValid (d : List Nat) : Bool :=
  d.length == 16 &&
    match d with
    | b0 :: b1 :: b2 :: b3 :: _ => readU32le b0 b1 b2 b3 == 1
    | _ => false

/-- The calls that increment the validation counter. -/
def isValidHeaderCall : ValidatorOp → Bool
  | .headerCall d => headerCallValid d
  | .payloadCall _ _ => false

end Nlink

namespace Nlink

/-! ## Facts about the byte codecs -/

theorem packDoubles_length (v : List Nat) :
    (packDoubles v).length = 8 * v.length := by
  induction v with
  | nil => rfl
  | cons x xs ih =>
      simp only [packDoubles, u64leBytes, List.length_append, List.length_cons,
        List.length_nil, ih, List.length_cons]
      ring

theorem packDoubles_lt256 (v : List Nat) : ∀ b ∈ packDoubles v, b < 256 := by
  induction v with
  | nil => simp [packDoubles]
  | cons x xs ih =>
      intro b hb
      simp only [packDoubles, u64leBytes, List.mem_append, List.mem_cons,
        List.not_mem_nil, or_false] at hb
      rcases hb with h | h
      · rcases h with h | h | h | h | h | h | h | h <;> omega
      · exact ih b h

theorem unpackDoubles_packDoubles (v : List Nat) (hv : ∀ x ∈ v, x < 2 ^ 64) :
    unpackDoubles (packDoubles v) = v := by
  induction v with
  | nil => rfl
  | cons x xs ih =>
      have hx : x < 2 ^ 64 := hv x (by simp)
      have hxs : ∀ y ∈ xs, y < 2 ^ 64 := fun y hy => hv y (by simp [hy])
      show unpackDoubles (u64leBytes x ++ packDoubles xs) = x :: xs
      simp only [u64leBytes, List.cons_append, List.nil_append, unpackDoubles]
      change readU64le _ _ _ _ _ _ _ _ :: unpackDoubles (packDoubles xs) = x :: xs
      rw [ih hxs]
      have : readU64le (x % 256) (x / 256 % 256) (x / 65536 % 256)
          (x / 16777216 % 256) (x / 4294967296 % 256)
          (x / 1099511627776 % 256) (x / 281474976710656 % 256)
          (x / 72057594037927936 % 256) = x := by
        unfold readU64le
        omega
      rw [this]

theorem from_bytes_cases (d : List Nat) :
    (d.length < 16 ∧ MarshalHeader.from_bytes d = .error .structFailure) ∨
    (16 ≤ d.length ∧ MarshalHeader.from_bytes d =
       .ok ⟨readU32At d 0, readU32At d 4, readU32At d 8, readU32At d 12⟩) := by
  rcases d with _ | ⟨b0, d⟩
  · exact .inl ⟨by simp, rfl⟩
  rcases d with _ | ⟨b1, d⟩
  · exact .inl ⟨by simp, rfl⟩
  rcases d with _ | ⟨b2, d⟩
  · exact .inl ⟨by simp, rfl⟩
  rcases d with _ | ⟨b3, d⟩
  · exact .inl ⟨by simp, rfl⟩
  rcases d with _ | ⟨b4, d⟩
  · exact .inl ⟨by simp, rfl⟩
  rcases d with _ | ⟨b5, d⟩
  · exact .inl ⟨by simp, rfl⟩
  rcases d with _ | ⟨b6, d⟩
  · exact .inl ⟨by simp, rfl⟩
  rcases d with _ | ⟨b7, d⟩
  · exact .inl ⟨by simp, rfl⟩
  rcases d with _ | ⟨b8, d⟩
  · exact .inl ⟨by simp, rfl⟩
  rcases d with _ | ⟨b9, d⟩
  · exact .inl ⟨by simp, rfl⟩
  rcases d with _ | ⟨b10, d⟩
  · exact .inl ⟨by simp, rfl⟩
  rcases d with _ | ⟨b11, d⟩
  · exact .inl ⟨by simp, rfl⟩
  rcases d with _ | ⟨b12, d⟩
  · exact .inl ⟨by simp, rfl⟩
  rcases d with _ | ⟨b13, d⟩
  · exact .inl ⟨by simp, rfl⟩
  rcases d with _ | ⟨b14, d⟩
  · exact .inl ⟨by simp, rfl⟩
  rcases d with _ | ⟨b15, d⟩
  · exact .inl ⟨by simp, rfl⟩
  refine .inr ⟨by simp, rfl⟩

theorem from_bytes_short {d : List Nat} (h : d.length < 16) :
    MarshalHeader.from_bytes d = .error .structFailure := by
  rcases from_bytes_cases d with ⟨_, h2⟩ | ⟨h1, _⟩
  · exact h2
  · omega

theorem from_bytes_long {d : List Nat} (h : 16 ≤ d.length) :
    MarshalHeader.from_bytes d =
      .ok ⟨readU32At d 0, readU32At d 4, readU32At d 8, readU32At d 12⟩ := by
  rcases from_bytes_cases d with ⟨h1, _⟩ | ⟨_, h2⟩
  · omega
  · exact h2

end Nlink

namespace Nlink

theorem packDoubles_unpackDoubles (p : List Nat) (hlen : p.length % 8 = 0)
    (hp : ∀ b ∈ p, b < 256) : packDoubles (unpackDoubles p) = p := by
  induction p using unpackDoubles.induct with
  | case1 b0 b1 b2 b3 b4 b5 b6 b7 rest ih =>
      have h0 : b0 < 256 := hp b0 (by simp)
      have h1 : b1 < 256 := hp b1 (by simp)
      have h2 : b2 < 256 := hp b2 (by simp)
      have h3 : b3 < 256 := hp b3 (by simp)
      have h4 : b4 < 256 := hp b4 (by simp)
      have h5 : b5 < 256 := hp b5 (by simp)
      have h6 : b6 < 256 := hp b6 (by simp)
      have h7 : b7 < 256 := hp b7 (by simp)
      have hrest : rest.length % 8 = 0 := by
        simp only [List.length_cons] at hlen
        omega
      have hq : ∀ b ∈ rest, b < 256 := fun b hb => hp b (by simp [hb])
      simp only [unpackDoubles, packDoubles, u64leBytes, readU64le]
      rw [ih hrest hq]
      simp only [List.cons_append, List.nil_append, List.cons.injEq]
      refine ⟨by omega, by omega, by omega, by omega, by omega, by omega,
        by omega, by omega, trivial⟩
  | case2 p h =>
      rcases p with _ | ⟨b0, p⟩
      · rfl
      rcases p with _ | ⟨b1, p⟩
      · simp at hlen
      rcases p with _ | ⟨b2, p⟩
      · simp at hlen
      rcases p with _ | ⟨b3, p⟩
      · simp at hlen
      rcases p with _ | ⟨b4, p⟩
      · simp at hlen
      rcases p with _ | ⟨b5, p⟩
      · simp at hlen
      rcases p with _ | ⟨b6, p⟩
      · simp at hlen
      rcases p with _ | ⟨b7, p⟩
      · simp at hlen
      exact (h b0 b1 b2 b3 b4 b5 b6 b7 p rfl).elim

theorem sha256_lt256 (msg : List Nat) : ∀ b ∈ sha256 msg, b < 256 := by
  intro b hb
  unfold sha256 at hb
  simp only [List.mem_flatten, List.mem_map] at hb
  obtain ⟨l, ⟨x, _, rfl⟩, hbl⟩ := hb
  simp only [u32beBytes, List.mem_cons, List.not_mem_nil, or_false] at hbl
  rcases hbl with h | h | h | h <;> omega

theorem readU32le_lt {b0 b1 b2 b3 : Nat} (h0 : b0 < 256) (h1 : b1 < 256)
    (h2 : b2 < 256) (h3 : b3 < 256) : readU32le b0 b1 b2 b3 < M32 := by
  unfold readU32le M32
  omega

theorem readU32le_u32le (x : Nat) (hx : x < M32) :
    readU32le (x % 256) (x / 256 % 256) (x / 65536 % 256)
      (x / 16777216 % 256) = x := by
  unfold readU32le M32 at *
  omega

theorem compute_checksum_eq_truncatedSha (data : List Nat) :
    compute_checksum data = truncatedSha (packDoubles data) := by
  dsimp only [compute_checksum, truncatedSha]

theorem truncatedSha_lt (p : List Nat) : truncatedSha p < M32 := by
  unfold truncatedSha
  cases h : sha256 p with
  | nil => norm_num [M32]
  | cons b0 t =>
    cases t with
    | nil => norm_num [M32]
    | cons b1 t =>
      cases t with
      | nil => norm_num [M32]
      | cons b2 t =>
        cases t with
        | nil => norm_num [M32]
        | cons b3 t =>
          refine readU32le_lt ?_ ?_ ?_ ?_ <;>
            refine sha256_lt256 p _ ?_ <;> rw [h] <;> simp

theorem compute_checksum_lt (data : List Nat) : compute_checksum data < M32 := by
  rw [compute_checksum_eq_truncatedSha]
  exact truncatedSha_lt _

theorem to_bytes_ok (h : MarshalHeader) (h1 : h.version < M32)
    (h2 : h.payload_size < M32) (h3 : h.checksum < M32)
    (h4 : h.topology_id < M32) :
    h.to_bytes = .ok (u32leBytes h.version ++ u32leBytes h.payload_size ++
      u32leBytes h.checksum ++ u32leBytes h.topology_id) := by
  unfold MarshalHeader.to_bytes packU32
  rw [if_pos h1, if_pos h2, if_pos h3, if_pos h4]

theorem from_bytes_header (a b c d : Nat) (rest : List Nat) (ha : a < M32)
    (hb : b < M32) (hc : c < M32) (hd : d < M32) :
    MarshalHeader.from_bytes (u32leBytes a ++ u32leBytes b ++ u32leBytes c ++
      u32leBytes d ++ rest) = .ok ⟨a, b, c, d⟩ := by
  have hstep : MarshalHeader.from_bytes (u32leBytes a ++ u32leBytes b ++
      u32leBytes c ++ u32leBytes d ++ rest) =
      .ok ⟨readU32le (a % 256) (a / 256 % 256) (a / 65536 % 256) (a / 16777216 % 256),
           readU32le (b % 256) (b / 256 % 256) (b / 65536 % 256) (b / 16777216 % 256),
           readU32le (c % 256) (c / 256 % 256) (c / 65536 % 256) (c / 16777216 % 256),
           readU32le (d % 256) (d / 256 % 256) (d / 65536 % 256) (d / 16777216 % 256)⟩ := rfl
  rw [hstep, readU32le_u32le a ha, readU32le_u32le b hb, readU32le_u32le c hc,
    readU32le_u32le d hd]

theorem marshal_data_ok (tid : Nat) (v : List Nat) (htid : tid < M32)
    (hlen : v.length < 2 ^ 29) :
    marshal_data tid v = .ok (u32leBytes 1 ++ u32leBytes (8 * v.length) ++
      u32leBytes (compute_checksum v) ++ u32leBytes tid ++ packDoubles v) := by
  have hps : (packDoubles v).length = 8 * v.length := packDoubles_length v
  have h29 : (2 : Nat) ^ 29 = 536870912 := by norm_num
  have hlt : (packDoubles v).length < M32 := by
    rw [hps]; unfold M32; omega
  dsimp only [marshal_data]
  rw [to_bytes_ok ⟨1, (packDoubles v).length, compute_checksum v, tid⟩
      (by norm_num [M32]) hlt (compute_checksum_lt v) htid]
  simp [hps, List.append_assoc]

end Nlink

namespace Nlink

theorem unmarshal_frame (ps ck tid : Nat) (payload : List Nat)
    (hps : payload.length = ps) (hpsM : ps < M32) (hck : ck < M32)
    (htid : tid < M32) :
    unmarshal_data (u32leBytes 1 ++ u32leBytes ps ++ u32leBytes ck ++
      u32leBytes tid ++ payload) =
      if ps ≠ 8 * (ps / 8) then .error .structFailure
      else if ck ≠ compute_checksum (unpackDoubles payload) then
        .error .securityChecksumFailed
      else .ok (unpackDoubles payload) := by
  have hlen16 : (u32leBytes 1 ++ u32leBytes ps ++ u32leBytes ck ++
      u32leBytes tid ++ payload).length = 16 + payload.length := by
    simp [u32leBytes]
    omega
  have hdrop : (u32leBytes 1 ++ u32leBytes ps ++ u32leBytes ck ++
      u32leBytes tid ++ payload).drop 16 = payload := rfl
  have htake : payload.take ps = payload := hps ▸ List.take_length payload
  dsimp only [unmarshal_data]
  rw [hlen16, if_neg (by omega)]
  rw [from_bytes_header 1 ps ck tid payload (by norm_num [M32]) hpsM hck htid]
  dsimp only
  rw [if_neg (by simp)]
  rw [hdrop, htake]
  rw [if_neg (by omega)]
  rw [hps]

theorem marshal_data_overflow (tid : Nat) (v : List Nat)
    (h : ¬ (packDoubles v).length < M32) :
    marshal_data tid v = .error .structFailure := by
  dsimp only [marshal_data, MarshalHeader.to_bytes, packU32]
  rw [if_pos (by norm_num [M32]), if_neg h]
  by_cases hc : compute_checksum v < M32 <;> by_cases ht : tid < M32 <;>
    simp [hc, ht]

theorem set_header_payload (a b c d x i : Nat) (rest : List Nat) :
    (u32leBytes a ++ u32leBytes b ++ u32leBytes c ++ u32leBytes d ++
      rest).set (16 + i) x =
    u32leBytes a ++ u32leBytes b ++ u32leBytes c ++ u32leBytes d ++
      rest.set i x := by
  have hgroup : u32leBytes a ++ u32leBytes b ++ u32leBytes c ++
      u32leBytes d ++ rest =
      (u32leBytes a ++ u32leBytes b ++ u32leBytes c ++ u32leBytes d) ++ rest := by
    simp [List.append_assoc]
  rw [hgroup, List.set_append]
  rw [if_neg (by simp [u32leBytes])]
  have h16 : (u32leBytes a ++ u32leBytes b ++ u32leBytes c ++
      u32leBytes d).length = 16 := by simp [u32leBytes]
  rw [h16, show 16 + i - 16 = i by omega]

/-- C1 (amended): for marshaller instances whose `topology_id` fits in 32
bits and inputs of fewer than 2^29 values (so `payload_size` fits in the
header's unsigned 32-bit field), `unmarshal_data (marshal_data v)` returns
exactly the input bit patterns. -/
theorem C1_roundtrip (tid : Nat) (v : List Nat) (htid : tid < M32)
    (hv : ∀ x ∈ v, x < 2 ^ 64) (hlen : v.length < 2 ^ 29) :
    (marshal_data tid v).bind unmarshal_data = .ok v := by
  have h29 : (2 : Nat) ^ 29 = 536870912 := by norm_num
  have hpsM : 8 * v.length < M32 := by unfold M32; omega
  rw [marshal_data_ok tid v htid hlen]
  show unmarshal_data (u32leBytes 1 ++ u32leBytes (8 * v.length) ++
    u32leBytes (compute_checksum v) ++ u32leBytes tid ++ packDoubles v) = .ok v
  rw [unmarshal_frame (8 * v.length) (compute_checksum v) tid (packDoubles v)
    (packDoubles_length v) hpsM (compute_checksum_lt v) htid]
  rw [if_neg (by omega)]
  rw [unpackDoubles_packDoubles v hv]
  rw [if_neg (by simp)]

end Nlink

namespace Nlink

/-- Witness for C1 at a concrete input: the bit patterns of `1.0` and `0.0`. -/
theorem C1_roundtrip_witness :
    (marshal_data 1 [4607182418800017408, 0]).bind unmarshal_data =
      .ok [4607182418800017408, 0] :=
  C1_roundtrip 1 [4607182418800017408, 0] (by decide) (by decide) (by decide)

/-- Counterexample to C1 as stated: on 2^29 values the payload size is 2^32,
`struct.pack('<I', ...)` raises, and the round trip is a `struct.error`, not
the input list. -/
theorem C1_roundtrip_counterexample :
    (marshal_data 1 (List.replicate (2 ^ 29) 0)).bind unmarshal_data ≠
      .ok (List.replicate (2 ^ 29) 0) ∧
    (marshal_data 1 (List.replicate (2 ^ 29) 0)).bind unmarshal_data =
      .error .structFailure := by
  have h : marshal_data 1 (List.replicate (2 ^ 29) 0) = .error .structFailure :=
    marshal_data_overflow 1 _ (by
      rw [packDoubles_length, List.length_replicate]
      norm_num [M32])
  have h2 : (marshal_data 1 (List.replicate (2 ^ 29) 0)).bind unmarshal_data =
      .error .structFailure := by
    rw [h]
    rfl
  refine ⟨?_, h2⟩
  rw [h2]
  exact fun hcontra => Except.noConfusion hcontra

/-- C7 (amended): for `topology_id` below 2^32 and fewer than 2^29 values,
`marshal_data` returns a frame of exactly `16 + 8 × len(values)` bytes whose
header decodes with `payload_size = 8 × len(values)`. -/
theorem C7_output_shape (tid : Nat) (v : List Nat) (htid : tid < M32)
    (hlen : v.length < 2 ^ 29) :
    (marshal_data tid v).map List.length = .ok (16 + 8 * v.length) ∧
    (marshal_data tid v).bind MarshalHeader.from_bytes =
      .ok ⟨1, 8 * v.length, compute_checksum v, tid⟩ := by
  have h29 : (2 : Nat) ^ 29 = 536870912 := by norm_num
  have hpsM : 8 * v.length < M32 := by unfold M32; omega
  rw [marshal_data_ok tid v htid hlen]
  constructor
  · have hL : (u32leBytes 1 ++ u32leBytes (8 * v.length) ++
        u32leBytes (compute_checksum v) ++ u32leBytes tid ++
        packDoubles v).length = 16 + 8 * v.length := by
      simp [u32leBytes, packDoubles_length]
      omega
    show Except.ok ((u32leBytes 1 ++ u32leBytes (8 * v.length) ++
      u32leBytes (compute_checksum v) ++ u32leBytes tid ++
      packDoubles v).length) = _
    rw [hL]
  · exact from_bytes_header 1 (8 * v.length) (compute_checksum v) tid
      (packDoubles v) (by norm_num [M32]) hpsM (compute_checksum_lt v) htid

/-- Witness for C7 at the empty input: a 16-byte frame with payload size 0. -/
theorem C7_output_shape_witness :
    (marshal_data 1 ([] : List Nat)).map List.length = .ok 16 ∧
    (marshal_data 1 ([] : List Nat)).bind MarshalHeader.from_bytes =
      .ok ⟨1, 0, compute_checksum [], 1⟩ :=
  C7_output_shape 1 [] (by decide) (by decide)

/-- Counterexample to C7 as stated: on 2^29 values `marshal_data` raises
instead of returning a `16 + 8 × len` byte string. -/
theorem C7_output_shape_counterexample :
    marshal_data 1 (List.replicate (2 ^ 29) 0) = .error .structFailure ∧
    (marshal_data 1 (List.replicate (2 ^ 29) 0)).map List.length ≠
      .ok (16 + 8 * (List.replicate (2 ^ 29) (0 : Nat)).length) := by
  have h : marshal_data 1 (List.replicate (2 ^ 29) 0) = .error .structFailure :=
    marshal_data_overflow 1 _ (by
      rw [packDoubles_length, List.length_replicate]
      norm_num [M32])
  refine ⟨h, ?_⟩
  rw [h]
  exact fun hcontra => Except.noConfusion hcontra

/-- C2 (amended): changing one payload byte of a marshalled frame (header
untouched) makes `unmarshal_data` fail with the checksum-mismatch
`SecurityError` whenever the truncated SHA-256 digest of the modified payload
differs from that of the original payload; 32-bit digest collisions are the
only escape. -/
theorem C2_tamper_detection (tid : Nat) (v : List Nat) (i b : Nat)
    (htid : tid < M32) (_hv : ∀ x ∈ v, x < 2 ^ 64) (hlen : v.length < 2 ^ 29)
    (_hi : i < 8 * v.length) (hb : b < 256)
    (_hchanged : b ≠ (packDoubles v).getD i 0)
    (hdiff : truncatedSha ((packDoubles v).set i b) ≠
      truncatedSha (packDoubles v)) :
    ∀ frame, marshal_data tid v = .ok frame →
      unmarshal_data (frame.set (16 + i) b) =
        .error .securityChecksumFailed := by
  intro frame hframe
  have h29 : (2 : Nat) ^ 29 = 536870912 := by norm_num
  have hpsM : 8 * v.length < M32 := by unfold M32; omega
  rw [marshal_data_ok tid v htid hlen] at hframe
  injection hframe with hfr
  subst hfr
  rw [set_header_payload]
  have hlenp : ((packDoubles v).set i b).length = 8 * v.length := by
    rw [List.length_set, packDoubles_length]
  rw [unmarshal_frame (8 * v.length) (compute_checksum v) tid
    ((packDoubles v).set i b) hlenp hpsM (compute_checksum_lt v) htid]
  rw [if_neg (by omega)]
  have hbytes : ∀ y ∈ (packDoubles v).set i b, y < 256 := by
    intro y hy
    rcases List.mem_or_eq_of_mem_set hy with h | h
    · exact packDoubles_lt256 v y h
    · omega
  have hrepack : compute_checksum (unpackDoubles ((packDoubles v).set i b)) =
      truncatedSha ((packDoubles v).set i b) := by
    rw [compute_checksum_eq_truncatedSha,
      packDoubles_unpackDoubles _ (by rw [hlenp]; omega) hbytes]
  rw [hrepack]
  rw [if_pos (by
    rw [compute_checksum_eq_truncatedSha]
    exact fun h => hdiff h.symm)]

end Nlink

namespace Nlink

/-- Witness for C2: tampering payload byte 0 of the frame for the single
value with bit pattern 0 (replacing byte 0x00 by 0x01) is caught as a
checksum failure. -/
theorem C2_tamper_detection_witness :
    unmarshal_data (([1, 0, 0, 0, 8, 0, 0, 0, 175, 85, 112, 245, 1, 0, 0, 0,
      0, 0, 0, 0, 0, 0, 0, 0] : List Nat).set (16 + 0) 1) =
      .error .securityChecksumFailed :=
  C2_tamper_detection 1 [0] 0 1 (by decide) (by decide) (by decide) (by decide)
    (by decide) (by decide) (by decide)
    [1, 0, 0, 0, 8, 0, 0, 0, 175, 85, 112, 245, 1, 0, 0, 0,
     0, 0, 0, 0, 0, 0, 0, 0] rfl

/-- Counterexample to C2 as stated: the 8-byte payloads `3fcf240600000000`
and `53cf240600000000` differ only in byte 0 yet share the truncated SHA-256
digest `a5f8fcf7`, so changing that payload byte of the marshalled frame
(header, checksum included, untouched) makes `unmarshal_data` succeed and
return the tampered value instead of failing. -/
theorem C2_tamper_detection_counterexample :
    marshal_data 1 [103075647] =
      .ok [1, 0, 0, 0, 8, 0, 0, 0, 165, 248, 252, 247, 1, 0, 0, 0,
           63, 207, 36, 6, 0, 0, 0, 0] ∧
    (83 : Nat) ≠ ([1, 0, 0, 0, 8, 0, 0, 0, 165, 248, 252, 247, 1, 0, 0, 0,
           63, 207, 36, 6, 0, 0, 0, 0] : List Nat).getD 16 0 ∧
    unmarshal_data (([1, 0, 0, 0, 8, 0, 0, 0, 165, 248, 252, 247, 1, 0, 0, 0,
           63, 207, 36, 6, 0, 0, 0, 0] : List Nat).set 16 83) =
      .ok [103075667] :=
  ⟨rfl, by decide, rfl⟩

/-- C3 (amended): a frame whose header declares a `payload_size` that is not
a multiple of 8 (version 1, enough bytes available) makes `unmarshal_data`
fail with the `struct.error` of the misaligned `struct.unpack` buffer.  The
failure happens at the payload-decode step, which the code runs BEFORE any
checksum recomputation, and the escaping error is `struct.error`, not one of
the marshaller's `SecurityError`s. -/
theorem C3_misaligned_payload (m : List Nat) (h : MarshalHeader)
    (hparse : MarshalHeader.from_bytes m = .ok h) (hver : h.version = 1)
    (havail : 16 + h.payload_size ≤ m.length)
    (hmod : h.payload_size % 8 ≠ 0) :
    unmarshal_data m = .error .structFailure := by
  have hplen : ((m.drop 16).take h.payload_size).length = h.payload_size := by
    simp only [List.length_take, List.length_drop]
    omega
  dsimp only [unmarshal_data]
  rw [if_neg (by omega), hparse]
  dsimp only
  rw [if_neg (by simp [hver])]
  rw [hplen]
  rw [if_neg (by omega)]
  rw [if_pos (by omega)]

/-- Witness for C3: a version-1 header declaring 9 payload bytes over a
9-byte payload. -/
theorem C3_misaligned_payload_witness :
    unmarshal_data [1, 0, 0, 0, 9, 0, 0, 0, 0, 0, 0, 0, 0, 0, 0, 0,
      0, 0, 0, 0, 0, 0, 0, 0, 0] = .error .structFailure :=
  C3_misaligned_payload
    [1, 0, 0, 0, 9, 0, 0, 0, 0, 0, 0, 0, 0, 0, 0, 0,
     0, 0, 0, 0, 0, 0, 0, 0, 0] ⟨1, 9, 0, 0⟩
    rfl rfl (by decide) (by decide)

/-- Counterexample to C3 as stated: on a frame with `payload_size = 9` the
failure is the raw `struct.error`, which is neither of the marshaller's
`SecurityError` kinds; and although the header checksum (0) disagrees with
the payload digest, no `IntegrityError` is raised — the decode step runs
first, so step 5 precedes step 4, not the other way around. -/
theorem C3_misaligned_payload_counterexample :
    unmarshal_data [1, 0, 0, 0, 9, 0, 0, 0, 0, 0, 0, 0, 0, 0, 0, 0,
      0, 0, 0, 0, 0, 0, 0, 0, 0] = .error .structFailure ∧
    MarshalError.isFormatKind .structFailure = false ∧
    MarshalError.isIntegrityKind .structFailure = false ∧
    truncatedSha (List.replicate 9 0) ≠ 0 :=
  ⟨rfl, rfl, rfl, by decide⟩

theorem from_bytes_append (m extra : List Nat) (h16 : 16 ≤ m.length) :
    MarshalHeader.from_bytes (m ++ extra) = MarshalHeader.from_bytes m := by
  dsimp only [MarshalHeader.from_bytes]
  rw [List.take_append_of_le_length h16]

/-- C4 (amended): a frame with FEWER bytes than the header declares fails
with a `SecurityError` of the format kind (`too short` below 16 bytes,
otherwise `Invalid version` or `Payload size mismatch`); but EXTRA trailing
bytes beyond `16 + payload_size` are silently ignored — `unmarshal_data`
behaves exactly as if they were absent, rather than failing. -/
theorem C4_truncation_detection (m extra : List Nat) (h : MarshalHeader) :
    (m.length < 16 → unmarshal_data m = .error .securityTooShort ∧
      MarshalError.isFormatKind .securityTooShort = true) ∧
    (MarshalHeader.from_bytes m = .ok h → m.length < 16 + h.payload_size →
      (unmarshal_data m = .error .securityInvalidVersion ∨
       unmarshal_data m = .error .securityPayloadSizeMismatch) ∧
      MarshalError.isFormatKind .securityInvalidVersion = true ∧
      MarshalError.isFormatKind .securityPayloadSizeMismatch = true) ∧
    (MarshalHeader.from_bytes m = .ok h → m.length = 16 + h.payload_size →
      unmarshal_data (m ++ extra) = unmarshal_data m) := by
  refine ⟨?_, ?_, ?_⟩
  · intro hshort
    refine ⟨?_, rfl⟩
    dsimp only [unmarshal_data]
    rw [if_pos hshort]
  · intro hparse hlt
    refine ⟨?_, rfl, rfl⟩
    have h16 : 16 ≤ m.length := by
      rcases from_bytes_cases m with ⟨_, he⟩ | ⟨hge, _⟩
      · rw [hparse] at he
        exact absurd he (by simp)
      · exact hge
    by_cases hver : h.version = 1
    · right
      dsimp only [unmarshal_data]
      rw [if_neg (by omega), hparse]
      dsimp only
      rw [if_neg (by simp [hver])]
      have hplen : ((m.drop 16).take h.payload_size).length = m.length - 16 := by
        simp only [List.length_take, List.length_drop]
        omega
      rw [hplen]
      rw [if_pos (by omega)]
    · left
      dsimp only [unmarshal_data]
      rw [if_neg (by omega), hparse]
      dsimp only
      rw [if_pos (by simp [hver])]
  · intro hparse hlen
    have h16 : 16 ≤ m.length := by omega
    have hfb : MarshalHeader.from_bytes (m ++ extra) = .ok h := by
      rw [from_bytes_append m extra h16, hparse]
    dsimp only [unmarshal_data]
    rw [if_neg (by simp only [List.length_append]; omega),
        if_neg (by omega), hfb, hparse]
    dsimp only
    rw [List.drop_append_of_le_length h16,
        List.take_append_of_le_length (by simp only [List.length_drop]; omega)]

/-- Witness for C4: a 3-byte input, a bare version-1 header declaring 8
missing payload bytes, and the valid empty-payload frame with one trailing
byte appended. -/
theorem C4_truncation_detection_witness :
    (unmarshal_data [0, 1, 2] = .error .securityTooShort ∧
      MarshalError.isFormatKind .securityTooShort = true) ∧
    (unmarshal_data [1, 0, 0, 0, 8, 0, 0, 0, 0, 0, 0, 0, 0, 0, 0, 0] =
        .error .securityInvalidVersion ∨
     unmarshal_data [1, 0, 0, 0, 8, 0, 0, 0, 0, 0, 0, 0, 0, 0, 0, 0] =
        .error .securityPayloadSizeMismatch) ∧
    unmarshal_data ([1, 0, 0, 0, 0, 0, 0, 0, 227, 176, 196, 66, 1, 0, 0, 0] ++
        [0]) =
      unmarshal_data [1, 0, 0, 0, 0, 0, 0, 0, 227, 176, 196, 66, 1, 0, 0, 0] :=
  ⟨(C4_truncation_detection [0, 1, 2] [] ⟨0, 0, 0, 0⟩).1 (by decide),
   ((C4_truncation_detection [1, 0, 0, 0, 8, 0, 0, 0, 0, 0, 0, 0, 0, 0, 0, 0]
      [] ⟨1, 8, 0, 0⟩).2.1 rfl (by decide)).1,
   (C4_truncation_detection
      [1, 0, 0, 0, 0, 0, 0, 0, 227, 176, 196, 66, 1, 0, 0, 0] [0]
      ⟨1, 0, 1120186595, 1⟩).2.2 rfl (by decide)⟩

/-- Counterexample to C4 as stated: appending one trailing byte to the valid
empty-payload frame does NOT produce a `FormatError` — `unmarshal_data`
succeeds and returns the empty sequence. -/
theorem C4_truncation_detection_counterexample :
    (marshal_data 1 ([] : List Nat)).bind
      (fun f => unmarshal_data (f ++ [0])) = .ok [] :=
  rfl

/-- C5 (amended): `MarshalHeader.from_bytes` fails exactly on inputs SHORTER
than 16 bytes (`data[:16]` keeps at most 16 bytes, so longer inputs decode
their first 16 bytes successfully); `SecurityValidator.validate_header`
returns `INVALID_FORMAT` on every input whose length is not exactly 16; and
an input of at least 16 bytes decodes to the four unsigned 32-bit
little-endian fields. -/
theorem C5_header_decode (d : List Nat) (s : SecurityValidator) :
    (d.length < 16 → MarshalHeader.from_bytes d = .error .structFailure) ∧
    (16 ≤ d.length → MarshalHeader.from_bytes d =
      .ok ⟨readU32At d 0, readU32At d 4, readU32At d 8, readU32At d 12⟩) ∧
    (d.length ≠ 16 → (validate_header s d).1 = .invalid_format) :=
  ⟨fun h => from_bytes_short h, fun h => from_bytes_long h, fun h => by
    dsimp only [validate_header]
    rw [if_pos h]⟩

/-- Witness for C5: a 3-byte input fails to decode and is rejected by the
validator; a 16-byte input decodes to its four fields. -/
theorem C5_header_decode_witness :
    MarshalHeader.from_bytes [0, 1, 2] = .error .structFailure ∧
    MarshalHeader.from_bytes (List.replicate 16 1) =
      .ok ⟨readU32At (List.replicate 16 1) 0, readU32At (List.replicate 16 1) 4,
           readU32At (List.replicate 16 1) 8,
           readU32At (List.replicate 16 1) 12⟩ ∧
    (validate_header ⟨⟨.standard, 3600⟩, 0⟩ [0, 1, 2]).1 = .invalid_format :=
  ⟨(C5_header_decode [0, 1, 2] ⟨⟨.standard, 3600⟩, 0⟩).1 (by decide),
   (C5_header_decode (List.replicate 16 1) ⟨⟨.standard, 3600⟩, 0⟩).2.1
     (by decide),
   (C5_header_decode [0, 1, 2] ⟨⟨.standard, 3600⟩, 0⟩).2.2 (by decide)⟩

/-- Counterexample to C5 as stated: a 17-byte input is not 16 bytes long,
yet `MarshalHeader.from_bytes` succeeds on it (slicing keeps the first 16
bytes) instead of failing. -/
theorem C5_header_decode_counterexample :
    (List.replicate 17 (0 : Nat)).length ≠ 16 ∧
    MarshalHeader.from_bytes (List.replicate 17 0) = .ok ⟨0, 0, 0, 0⟩ :=
  ⟨by decide, rfl⟩

theorem valid_fst_iff (c e : Nat) (s : SecurityValidator) :
    ((if c ≠ e then ((ValidationResult.invalid_checksum, s) :
        ValidationResult × SecurityValidator)
      else (.valid, s)).1 = .valid) ↔ c = e := by
  split
  · rename_i hne
    simp [hne]
  · rename_i hne
    simp at hne
    simp [hne]

/-- C6: `validate_payload` accepts under `BASIC` exactly when the expected
checksum equals the byte sum modulo 2^32, and under `STANDARD`/`ENHANCED`
exactly when it equals the first four SHA-256 digest bytes read
little-endian; both digests are functions of the payload alone, and the
marshaller's `_compute_checksum` equals the strong digest of its packed
payload bytes. -/
theorem C6_validator_digests (p : List Nat) (e maxAge cnt : Nat) :
    ((validate_payload ⟨⟨.basic, maxAge⟩, cnt⟩ p e).1 = .valid ↔
      p.sum % 2 ^ 32 = e) ∧
    ((validate_payload ⟨⟨.standard, maxAge⟩, cnt⟩ p e).1 = .valid ↔
      truncatedSha p = e) ∧
    ((validate_payload ⟨⟨.enhanced, maxAge⟩, cnt⟩ p e).1 = .valid ↔
      truncatedSha p = e) ∧
    (∀ data : List Nat,
      compute_checksum data = truncatedSha (packDoubles data)) := by
  have hand : p.sum &&& 4294967295 = p.sum % 2 ^ 32 := by
    have := Nat.and_pow_two_sub_one_eq_mod p.sum 32
    norm_num at this ⊢
    omega
  refine ⟨?_, ?_, ?_, fun data => compute_checksum_eq_truncatedSha data⟩
  · dsimp only [validate_payload]
    rw [if_pos rfl, hand]
    exact valid_fst_iff _ _ _
  · dsimp only [validate_payload]
    rw [if_neg (show ¬ ValidationLevel.standard = ValidationLevel.basic from
      by decide)]
    exact valid_fst_iff _ _ _
  · dsimp only [validate_payload]
    rw [if_neg (show ¬ ValidationLevel.enhanced = ValidationLevel.basic from
      by decide)]
    exact valid_fst_iff _ _ _

end Nlink

namespace Nlink

theorem register_node_fresh (m : TopologyManager) (t : String) (now : Nat)
    (hids : m.nodes.map (fun n => n.node_id) = List.range' 1 m.nodes.length) :
    register_node m t now =
      (m.nodes.length + 1,
       ⟨m.nodes ++ [⟨m.nodes.length + 1, t, now, 0, .active⟩],
        match m.local_node_id with
        | none => some (m.nodes.length + 1)
        | some x => some x⟩) := by
  dsimp only [register_node, dictInsert]
  rw [if_neg ?hfresh]
  case hfresh =>
    simp only [List.any_eq_true, not_exists, not_and]
    intro nd hnd hbeq
    have hmem : nd.node_id ∈ m.nodes.map (fun n => n.node_id) :=
      List.mem_map_of_mem _ hnd
    rw [hids] at hmem
    have hrange := List.mem_range'_1.mp hmem
    simp only [beq_iff_eq] at hbeq
    omega

theorem registerRun_spec (args : List (String × Nat)) (m : TopologyManager)
    (hids : m.nodes.map (fun n => n.node_id) = List.range' 1 m.nodes.length) :
    (registerRun m args).1 = List.range' (m.nodes.length + 1) args.length ∧
    (registerRun m args).2.nodes.map (fun n => n.node_id) =
      List.range' 1 (m.nodes.length + args.length) ∧
    (registerRun m args).2.local_node_id =
      (match m.local_node_id with
       | some x => some x
       | none =>
           if args.length = 0 then none
           else some (m.nodes.length + 1)) := by
  induction args generalizing m with
  | nil =>
      refine ⟨rfl, by simpa using hids, ?_⟩
      show m.local_node_id = _
      cases m.local_node_id <;> rfl
  | cons a rest ih =>
      obtain ⟨t, now⟩ := a
      simp only [List.length_cons]
      dsimp only [registerRun]
      rw [register_node_fresh m t now hids]
      set m' : TopologyManager :=
        ⟨m.nodes ++ [⟨m.nodes.length + 1, t, now, 0, .active⟩],
         match m.local_node_id with
         | none => some (m.nodes.length + 1)
         | some x => some x⟩ with hm'
      have hlen' : m'.nodes.length = m.nodes.length + 1 := by
        simp [hm']
      have hids' : m'.nodes.map (fun n => n.node_id) =
          List.range' 1 m'.nodes.length := by
        rw [hlen']
        simp only [hm', List.map_append, hids, List.map_cons, List.map_nil]
        rw [List.range'_concat]
        simp [Nat.add_comm]
      obtain ⟨h1, h2, h3⟩ := ih m' hids'
      refine ⟨?_, ?_, ?_⟩
      · dsimp only
        rw [h1, hlen', List.range'_succ]
      · dsimp only
        rw [h2, hlen']
        congr 1
        omega
      · dsimp only
        rw [h3]
        cases hl : m.local_node_id with
        | none => simp [hm', hl]
        | some x => simp [hm', hl]

/-- C8: on a fresh `TopologyManager`, successive `register_node` calls return
exactly 1, 2, 3, … in call order (`List.range' 1 n` is `[1, …, n]`: unique,
strictly increasing, starting at 1, no gaps), and the local node id is the
first registration's id 1, never replaced by later registrations (it stays
`some 1` for every non-empty call sequence). -/
theorem C8_register_node_ids (args : List (String × Nat)) :
    (registerRun TopologyManager.init args).1 = List.range' 1 args.length ∧
    (registerRun TopologyManager.init args).2.local_node_id =
      (if args.length = 0 then none else some 1) := by
  obtain ⟨h1, _, h3⟩ := registerRun_spec args TopologyManager.init rfl
  exact ⟨by simpa using h1, by simpa using h3⟩

theorem mem_dictInsert (nodes : List TopologyNode) (node nd : TopologyNode)
    (hn : nd ∈ dictInsert nodes node) : nd ∈ nodes ∨ nd = node := by
  unfold dictInsert at hn
  split at hn
  · obtain ⟨x, hx, hfx⟩ := List.mem_map.mp hn
    by_cases hc : x.node_id == node.node_id
    · rw [if_pos hc] at hfx
      exact .inr hfx.symm
    · rw [if_neg hc] at hfx
      exact .inl (hfx ▸ hx)
  · rcases List.mem_append.mp hn with h | h
    · exact .inl h
    · exact .inr (List.mem_singleton.mp h)

theorem allActive_applyTopoOps (ops : List TopoOp) (m : TopologyManager)
    (hm : ∀ n ∈ m.nodes, n.state = .active) :
    ∀ n ∈ (applyTopoOps m ops).nodes, n.state = .active := by
  induction ops generalizing m with
  | nil => exact hm
  | cons op rest ih =>
      cases op with
      | register t now =>
          dsimp only [applyTopoOps]
          refine ih _ ?_
          intro nd hnd
          dsimp only [register_node] at hnd
          rcases mem_dictInsert _ _ _ hnd with h | h
          · exact hm nd h
          · rw [h]
      | heartbeat nid now =>
          dsimp only [applyTopoOps]
          refine ih _ ?_
          intro nd hnd
          dsimp only [update_heartbeat] at hnd
          split at hnd
          · obtain ⟨x, hx, hfx⟩ := List.mem_map.mp hnd
            by_cases hc : x.node_id == nid
            · rw [if_pos hc] at hfx
              rw [← hfx]
              exact hm x hx
            · rw [if_neg hc] at hfx
              exact hm nd (hfx ▸ hx)
          · exact hm nd hnd
      | localQuery => exact ih m hm
      | summaryQuery => exact ih m hm

/-- C10: in every state reachable from a fresh `TopologyManager` by
`register_node`, `update_heartbeat`, `get_local_node_id` and
`get_topology_summary` calls, every stored node is `ACTIVE` (no operation
ever sets `DEGRADED` or `OFFLINE`), so `get_topology_summary` always reports
`active_nodes = total_nodes`. -/
theorem C10_always_active (ops : List TopoOp) :
    (∀ n ∈ (applyTopoOps TopologyManager.init ops).nodes,
      n.state = NodeState.active) ∧
    (get_topology_summary (applyTopoOps TopologyManager.init ops)).active_nodes
      = (get_topology_summary
          (applyTopoOps TopologyManager.init ops)).total_nodes := by
  have hall := allActive_applyTopoOps ops TopologyManager.init
    (by simp [TopologyManager.init])
  refine ⟨hall, ?_⟩
  dsimp only [get_topology_summary]
  rw [List.filter_eq_self.mpr ?_]
  intro a ha
  simp [hall a ha]

theorem validate_header_count (s : SecurityValidator) (d : List Nat) :
    (validate_header s d).2.validation_count =
      s.validation_count + (if headerCallValid d then 1 else 0) := by
  by_cases hlen : d.length = 16
  · rcases d with _ | ⟨b0, d⟩
    · simp at hlen
    rcases d with _ | ⟨b1, d⟩
    · simp at hlen
    rcases d with _ | ⟨b2, d⟩
    · simp at hlen
    rcases d with _ | ⟨b3, d⟩
    · simp at hlen
    by_cases hv : readU32le b0 b1 b2 b3 = 1
    · simp [validate_header, headerCallValid, hlen, hv]
    · simp [validate_header, headerCallValid, hlen, hv]
  · simp [validate_header, headerCallValid, hlen]

theorem validate_payload_state (s : SecurityValidator) (d : List Nat)
    (e : Nat) : (validate_payload s d e).2 = s := by
  dsimp only [validate_payload]
  split <;> split <;> rfl

theorem validate_header_valid_iff (s : SecurityValidator) (d : List Nat) :
    (validate_header s d).1 = .valid ↔ headerCallValid d = true := by
  by_cases hlen : d.length = 16
  · rcases d with _ | ⟨b0, d⟩
    · simp at hlen
    rcases d with _ | ⟨b1, d⟩
    · simp at hlen
    rcases d with _ | ⟨b2, d⟩
    · simp at hlen
    rcases d with _ | ⟨b3, d⟩
    · simp at hlen
    by_cases hv : readU32le b0 b1 b2 b3 = 1
    · simp [validate_header, headerCallValid, hlen, hv]
    · simp [validate_header, headerCallValid, hlen, hv]
  · simp [validate_header, headerCallValid, hlen]

/-- C9 (amended): the counter reported by `get_statistics` counts only the
`validate_header` calls that returned `VALID` (exactly 16 bytes with version
1); a failed `validate_header` call does not increment it, and
`validate_payload` never touches the validator state at all. -/
theorem C9_validation_count (ops : List ValidatorOp) (s : SecurityValidator)
    (d p : List Nat) (e : Nat) :
    ((validate_header s d).1 = .valid ↔ headerCallValid d = true) ∧
    (validate_payload s p e).2 = s ∧
    (get_statistics (applyValidatorOps s ops)).1 =
      s.validation_count + (ops.filter isValidHeaderCall).length := by
  refine ⟨validate_header_valid_iff s d, validate_payload_state s p e, ?_⟩
  show (applyValidatorOps s ops).validation_count = _
  induction ops generalizing s with
  | nil => simp [applyValidatorOps]
  | cons op rest ih =>
      cases op with
      | headerCall dd =>
          dsimp only [applyValidatorOps]
          rw [ih, validate_header_count]
          cases h : headerCallValid dd
          · simp [List.filter_cons, isValidHeaderCall, h]
          · simp [List.filter_cons, isValidHeaderCall, h]
            omega
      | payloadCall dd ee =>
          dsimp only [applyValidatorOps]
          rw [ih, validate_payload_state]
          simp [List.filter_cons, isValidHeaderCall]

/-- Counterexample to C9 as stated: a `validate_payload` call on a fresh
validator leaves the counter at 0 (the claim predicts 1), and a
`validate_header` call returning `INVALID_FORMAT` does not increment it
either. -/
theorem C9_validation_count_counterexample :
    (validate_payload ⟨⟨.standard, 3600⟩, 0⟩ [] 0).2.validation_count = 0 ∧
    (validate_payload ⟨⟨.standard, 3600⟩, 0⟩ [] 0).2.validation_count ≠ 1 ∧
    (validate_header ⟨⟨.standard, 3600⟩, 0⟩ [0, 1, 2]).2.validation_count
      = 0 := by
  refine ⟨?_, ?_, rfl⟩
  · rw [validate_payload_state]
  · rw [validate_payload_state]
    decide

end Nlink

namespace Nlink

/-- Witness for C6: under `BASIC` the expected checksum 6 matches the byte
sum of `[1, 2, 3]`; and the marshaller's checksum of the empty sequence is
the strong digest of the empty payload. -/
theorem C6_validator_digests_witness :
    (validate_payload ⟨⟨.basic, 3600⟩, 0⟩ [1, 2, 3] 6).1 = .valid ∧
    compute_checksum [] = truncatedSha (packDoubles []) :=
  ⟨(C6_validator_digests [1, 2, 3] 6 3600 0).1.mpr (by decide),
   (C6_validator_digests [1, 2, 3] 6 3600 0).2.2.2 []⟩

/-- Witness for C8: two registrations return ids 1 and 2 and leave the local
id at 1. -/
theorem C8_register_node_ids_witness :
    (registerRun TopologyManager.init [("python", 5), ("java", 7)]).1 =
      [1, 2] ∧
    (registerRun TopologyManager.init
      [("python", 5), ("java", 7)]).2.local_node_id = some 1 :=
  ⟨(C8_register_node_ids [("python", 5), ("java", 7)]).1.trans (by decide),
   (C8_register_node_ids [("python", 5), ("java", 7)]).2.trans (by decide)⟩

/-- Witness for C9: of a valid header call, an invalid header call and a
payload call, only the first is counted. -/
theorem C9_validation_count_witness :
    (get_statistics (applyValidatorOps ⟨⟨.standard, 3600⟩, 0⟩
      [.headerCall ([1, 0, 0, 0] ++ List.replicate 12 0), .headerCall [0],
       .payloadCall [] 0])).1 = 1 :=
  ((C9_validation_count
      [.headerCall ([1, 0, 0, 0] ++ List.replicate 12 0), .headerCall [0],
       .payloadCall [] 0]
      ⟨⟨.standard, 3600⟩, 0⟩ [] [] 0).2.2).trans (by decide)

/-- Witness for C10: after one registration, one heartbeat and both reads,
the summary reports as many active nodes as total nodes. -/
theorem C10_always_active_witness :
    (get_topology_summary (applyTopoOps TopologyManager.init
      [.register "python" 3, .heartbeat 1 9, .localQuery,
       .summaryQuery])).active_nodes =
    (get_topology_summary (applyTopoOps TopologyManager.init
      [.register "python" 3, .heartbeat 1 9, .localQuery,
       .summaryQuery])).total_nodes :=
  (C10_always_active
    [.register "python" 3, .heartbeat 1 9, .localQuery, .summaryQuery]).2

end Nlink
